import Mathlib

/- Verification of the ladder projection algorithm and progress state machine of
   the sbkladdergen repository (src/src/App.js and src/unnamed/part_000).

   JavaScript numbers are idealised as exact rationals; the two-decimal rounding
   performed by `parseFloat(x.toFixed(2))` is modelled as round-half-away-from-zero
   on the exact rational value.  JavaScript strings are modelled as Lean strings,
   processed as lists of characters; `String.prototype.trim` and the
   whitespace-skipping of `parseFloat` are modelled over the common whitespace
   characters.  Ladder ids (produced by `Date.now().toString()` or Firestore) are
   modelled as natural numbers; timestamps (`Date.now`, `toISOString`) carry no
   logic and are omitted from the state model. -/

set_option maxRecDepth 8000

attribute [local semireducible] Rat.add Rat.mul Rat.sub Rat.inv Rat.ofScientific

namespace Sbk

/- Whitespace test used by the models of String.prototype.trim and parseFloat. -/
def isWs (c : Char) : Bool :=
  decide (c = ' ') || decide (c = '\t') || decide (c = '\n') || decide (c = '\r')

/- Model of JavaScript String.prototype.trim: drop whitespace at both ends. -/
def trimList (cs : List Char) : List Char :=
  ((cs.dropWhile isWs).reverse.dropWhile isWs).reverse

/- Consume a run of decimal digits, returning the accumulated value, the number of
   digits consumed, and the rest of the input. -/
def digitsToNat : ℕ → List Char → ℕ × ℕ × List Char
  | acc, [] => (acc, 0, [])
  | acc, c :: cs =>
    if c.isDigit then
      let r := digitsToNat (10 * acc + (c.toNat - 48)) cs
      (r.1, r.2.1 + 1, r.2.2)
    else (acc, 0, c :: cs)

/- Optional leading sign of a JavaScript numeric literal. -/
def parseSign : List Char → ℚ × List Char
  | [] => (1, [])
  | c :: rest =>
    if c = '+' then (1, rest)
    else if c = '-' then (-1, rest)
    else (1, c :: rest)

/- Model of JavaScript parseFloat on the decimal grammar it accepts here:
   optional leading whitespace, optional sign, digits with an optional fractional
   part, parsed as a longest prefix; `none` models NaN. -/
def parseFloatList (cs0 : List Char) : Option ℚ :=
  let cs := cs0.dropWhile isWs
  let sp := parseSign cs
  let ip := digitsToNat 0 sp.2
  match ip.2.2 with
  | '.' :: cs3 =>
    let fp := digitsToNat 0 cs3
    if ip.2.1 = 0 ∧ fp.2.1 = 0 then none
    else some (sp.1 * ((ip.1 : ℚ) + (fp.1 : ℚ) / (10 : ℚ) ^ fp.2.1))
  | _ => if ip.2.1 = 0 then none else some (sp.1 * (ip.1 : ℚ))

/- Model of `parseFloat(x.toFixed(2))`: round to two decimal places,
   half away from zero. -/
def roundTo2 (q : ℚ) : ℚ :=
  if q < 0 then -(((⌊-q * 100 + 1/2⌋ : ℤ) : ℚ) / 100)
  else ((⌊q * 100 + 1/2⌋ : ℤ) : ℚ) / 100

/- Embedding of calculateProfit (src/src/App.js lines 10-28): trim the odds
   string; a string shorter than two characters yields 0; parse the magnitude
   after the sign character; NaN or a non-positive magnitude yields 0; a '+'
   sign multiplies the stake by magnitude/100, a '-' sign divides the stake by
   magnitude/100, any other sign character yields 0; the result is rounded to
   two decimals. -/
def calculateProfit (stake : ℚ) (oddsString : String) : ℚ :=
  if (trimList oddsString.toList).length < 2 then 0
  else
    match parseFloatList ((trimList oddsString.toList).drop 1) with
    | none => 0
    | some num =>
      if num ≤ 0 then 0
      else
        roundTo2
          (if (trimList oddsString.toList).headD ' ' = '+' then stake * (|num| / 100)
           else if (trimList oddsString.toList).headD ' ' = '-' then stake / (|num| / 100)
           else 0)

/- One projected step of a ladder (the objects pushed by calculateLadder). -/
structure Step where
  day : ℕ
  stake : ℚ
  profit : ℚ
  nextBalance : ℚ
  isGoalDay : Bool
deriving DecidableEq, Inhabited

/- Embedding of the while loop of calculateLadder (src/src/App.js lines 84-112).
   The fuel argument makes the recursion structural; calculateLadder supplies
   fuel 501 so that, starting from day 1, the fuel can never run out before the
   `day <= 500` test fails, and the loop is exactly the source's. -/
def calcLoop (finalGoal : ℚ) (oddsStr : String) : ℕ → ℚ → ℕ → List Step
  | 0, _, _ => []
  | fuel + 1, currentStake, day =>
    if currentStake < finalGoal ∧ day ≤ 500 then
      let profit := calculateProfit currentStake oddsStr
      let nextBalance := currentStake + profit
      let step : Step := ⟨day, currentStake, profit, nextBalance, decide (finalGoal ≤ nextBalance)⟩
      if finalGoal ≤ nextBalance then [step]
      else step :: calcLoop finalGoal oddsStr fuel nextBalance (day + 1)
    else []

/- Embedding of calculateLadder: run the loop from the start stake at day 1. -/
def calculateLadder (stake finalGoal : ℚ) (oddsStr : String) : List Step :=
  calcLoop finalGoal oddsStr 501 stake 1

/- Balance after one winning wager at the given odds. -/
def nextBal (odds : String) (b : ℚ) : ℚ := b + calculateProfit b odds

/- Balance after n winning wagers starting from `start`: the pure compounding
   iteration that the projection loop walks through. -/
def balAfter (odds : String) (start : ℚ) : ℕ → ℚ
  | 0 => start
  | n + 1 => nextBal odds (balAfter odds start n)

/- Model of the odds-format validation regex /^[\+\-]\d+$/ of handleNewLadder. -/
def validOddsList : List Char → Bool
  | [] => false
  | c :: rest => (c == '+' || c == '-') && (!rest.isEmpty) && rest.all Char.isDigit

/- Numeric value of a list of digit characters. -/
def digitsVal (ds : List Char) : ℕ :=
  ds.foldl (fun a c => 10 * a + (c.toNat - 48)) 0

/- Model of the input sanitisation `replace(/[^0-9.]/g, '')` of handleNewLadder. -/
def sanitizeNum (s : String) : List Char :=
  s.toList.filter (fun c => c.isDigit || c = '.')

/- The persisted ladder entity (the object built by handleNewLadder). -/
structure Ladder where
  id : ℕ
  name : String
  startStake : ℚ
  goalAmount : ℚ
  odds : String
  currentAmount : ℚ
  currentDayIndex : ℕ
  ladderData : List Step
deriving DecidableEq, Inhabited

/- Embedding of handleNewLadder (src/src/App.js lines 118-156): sanitise and
   parse the stake and goal inputs, trim the name and odds, validate
   (non-empty name, numeric positive start, goal strictly above start, odds
   matching the regex), project the ladder, reject an empty projection, and
   otherwise create the ladder with currentAmount = start and index 0.
   `none` models the two early returns (validation and calculation error);
   the id (Date.now) is modelled as 0. -/
def createLadder (name startInput goalInput oddsInput : String) : Option Ladder :=
  match parseFloatList (sanitizeNum startInput), parseFloatList (sanitizeNum goalInput) with
  | some newStart, some newGoal =>
    if trimList name.toList = [] ∨ newStart ≤ 0 ∨ newGoal ≤ newStart ∨
        ¬ validOddsList (trimList oddsInput.toList) = true then none
    else
      if (calculateLadder newStart newGoal (String.mk (trimList oddsInput.toList))).length = 0
      then none
      else some
        { id := 0
          name := String.mk (trimList name.toList)
          startStake := newStart
          goalAmount := newGoal
          odds := String.mk (trimList oddsInput.toList)
          currentAmount := newStart
          currentDayIndex := 0
          ladderData := calculateLadder newStart newGoal (String.mk (trimList oddsInput.toList)) }
  | _, _ => none

/- The win/loss double state of the confirmation timer (winClickState). -/
inductive WinClick
  | ready
  | pending
deriving DecidableEq

/- The two progress-update actions of handleProgressUpdate. -/
inductive UpdateType
  | win
  | loss
deriving DecidableEq

/- The application state the handlers act on: the ladder list, the selected id,
   the win-confirmation flag, the delete-confirmation flag and the saving flag. -/
structure AppState where
  allLadders : List Ladder
  selectedLadderId : Option ℕ
  winClickState : WinClick
  isDeletePending : Bool
  isSaving : Bool
deriving DecidableEq

/- Embedding of the activeLadder memo:
   `allLadders.find(l => l.id === selectedLadderId) || null`. -/
def activeLadder (st : AppState) : Option Ladder :=
  st.allLadders.find? (fun l => decide (some l.id = st.selectedLadderId))

/- The per-ladder update the WIN branch applies to the active ladder: new
   balance is the goal amount on a goal day and the step's nextBalance
   otherwise, and the cursor advances by one. -/
def winStep (al : Ladder) : Ladder :=
  { al with
    currentAmount :=
      if (al.ladderData.getD al.currentDayIndex default).isGoalDay then al.goalAmount
      else (al.ladderData.getD al.currentDayIndex default).nextBalance
    currentDayIndex := al.currentDayIndex + 1 }

/- The per-ladder update the LOSS branch applies: back to the start stake at
   index 0 (the applyLoss operation of the specification). -/
def applyLoss (l : Ladder) : Ladder :=
  { l with currentAmount := l.startStake, currentDayIndex := 0 }

/- Embedding of handleProgressUpdate (src/src/App.js lines 158-201).  The
   returned Bool is true exactly when the WIN branch reports
   "Goal already reached. No more steps." and leaves the state unchanged. -/
def handleProgressUpdate (st : AppState) (ty : UpdateType) : AppState × Bool :=
  match activeLadder st with
  | none => (st, false)
  | some al =>
    if st.isSaving = true then (st, false)
    else
      match ty with
      | UpdateType.win =>
        if al.ladderData.length ≤ al.currentDayIndex then (st, true)
        else
          ({ st with
              allLadders := st.allLadders.map (fun l =>
                if l.id = al.id then
                  { l with
                    currentAmount :=
                      if (al.ladderData.getD al.currentDayIndex default).isGoalDay
                      then al.goalAmount
                      else (al.ladderData.getD al.currentDayIndex default).nextBalance
                    currentDayIndex := l.currentDayIndex + 1 }
                else l) }, false)
      | UpdateType.loss =>
        ({ st with
            allLadders := st.allLadders.map (fun l =>
              if l.id = al.id then applyLoss l else l) }, false)

/- Embedding of handleWinTap (src/src/App.js lines 203-214): guarded by
   isLadderReady, isGoalReached and isSaving; a first tap while ready only
   moves the confirmation to pending; a tap while pending moves it back to
   ready and invokes the WIN progress update. -/
def handleWinTap (st : AppState) : AppState :=
  match activeLadder st with
  | none => st
  | some al =>
    if al.ladderData.length = 0 ∨ al.ladderData.length ≤ al.currentDayIndex ∨
        st.isSaving = true then st
    else
      match st.winClickState with
      | WinClick.ready => { st with winClickState := WinClick.pending }
      | WinClick.pending =>
        (handleProgressUpdate { st with winClickState := WinClick.ready } UpdateType.win).1

/- Embedding of the ladder-selector onChange handler (src/src/App.js lines
   296-305): guarded by the select being enabled, it sets the selected id and
   clears the delete confirmation; it does not touch winClickState. -/
def selectLadder (st : AppState) (newId : ℕ) : AppState :=
  if st.allLadders.isEmpty = true ∨ st.isSaving = true then st
  else { st with selectedLadderId := some newId, isDeletePending := false }

/- Embedding of handleConfirmDelete (src/src/App.js lines 216-223): filter the
   deleted id out of the list, then set the selection to the first ladder of
   the PRE-delete list when more than one ladder existed, else to null. -/
def handleConfirmDelete (st : AppState) : AppState :=
  match activeLadder st with
  | none => st
  | some al =>
    if st.isDeletePending = false then st
    else
      { st with
        allLadders := st.allLadders.filter (fun l => decide (l.id ≠ al.id))
        selectedLadderId :=
          if 1 < st.allLadders.length then some ((st.allLadders.getD 0 default).id)
          else none
        isDeletePending := false }

/- Embedding of handleConfirmDelete of the Firestore variant
   (src/unnamed/part_000 lines 338-355): the document is deleted (the snapshot
   listener drops it from the list) and the selection is always cleared. -/
def handleConfirmDeleteRemote (st : AppState) : AppState :=
  match activeLadder st with
  | none => st
  | some al =>
    if st.isDeletePending = false then st
    else
      { st with
        allLadders := st.allLadders.filter (fun l => decide (l.id ≠ al.id))
        selectedLadderId := none
        isDeletePending := false }

/- ---------- helper lemmas ---------- -/

lemma roundTo2_zero : roundTo2 0 = 0 := by decide

lemma isDigit_ne_plus (c : Char) (h : c.isDigit = true) : c ≠ '+' := by
  rintro rfl; exact absurd h (by decide)

lemma isDigit_ne_minus (c : Char) (h : c.isDigit = true) : c ≠ '-' := by
  rintro rfl; exact absurd h (by decide)

lemma isDigit_not_ws (c : Char) (h : c.isDigit = true) : isWs c = false := by
  rcases eq_or_ne c ' ' with rfl | h1
  · exact absurd h (by decide)
  rcases eq_or_ne c '\t' with rfl | h2
  · exact absurd h (by decide)
  rcases eq_or_ne c '\n' with rfl | h3
  · exact absurd h (by decide)
  rcases eq_or_ne c '\r' with rfl | h4
  · exact absurd h (by decide)
  simp [isWs, h1, h2, h3, h4]

lemma dropWhile_no_ws (cs : List Char) (h : ∀ c ∈ cs, isWs c = false) :
    cs.dropWhile isWs = cs := by
  cases cs with
  | nil => rfl
  | cons a l =>
    rw [List.dropWhile_cons, h a (by simp)]
    simp

lemma trimList_of_no_ws (cs : List Char) (h : ∀ c ∈ cs, isWs c = false) :
    trimList cs = cs := by
  unfold trimList
  rw [dropWhile_no_ws cs h, dropWhile_no_ws cs.reverse (by simpa using fun c hc => h c hc),
    List.reverse_reverse]

lemma digitsToNat_all_digits (ds : List Char) (h : ∀ c ∈ ds, c.isDigit = true) :
    ∀ acc : ℕ,
      digitsToNat acc ds =
        (ds.foldl (fun a c => 10 * a + (c.toNat - 48)) acc, ds.length, ([] : List Char)) := by
  induction ds with
  | nil => intro acc; rfl
  | cons c cs ih =>
    intro acc
    have hc : c.isDigit = true := h c (by simp)
    simp only [digitsToNat, hc, if_true]
    rw [ih (fun x hx => h x (by simp [hx])) (10 * acc + (c.toNat - 48))]
    simp [List.foldl_cons]

lemma parseFloatList_digits (ds : List Char) (hne : ds ≠ [])
    (hdig : ∀ c ∈ ds, c.isDigit = true) :
    parseFloatList ds = some ((digitsVal ds : ℚ)) := by
  obtain ⟨d, ds', rfl⟩ := List.exists_cons_of_ne_nil hne
  have hd : d.isDigit = true := hdig d (by simp)
  unfold parseFloatList
  rw [dropWhile_no_ws _ (fun c hc => isDigit_not_ws c (hdig c hc))]
  simp only [parseSign, if_neg (isDigit_ne_plus d hd), if_neg (isDigit_ne_minus d hd)]
  rw [digitsToNat_all_digits (d :: ds') hdig 0]
  simp [digitsVal]

lemma calculateProfit_eq_of_parse (stake : ℚ) (s : String) (q : ℚ)
    (hlen : ¬ (trimList s.toList).length < 2)
    (hq : parseFloatList ((trimList s.toList).drop 1) = some q)
    (hq0 : ¬ q ≤ 0) :
    calculateProfit stake s =
      roundTo2 (if (trimList s.toList).headD ' ' = '+' then stake * (|q| / 100)
        else if (trimList s.toList).headD ' ' = '-' then stake / (|q| / 100) else 0) := by
  unfold calculateProfit
  rw [if_neg hlen, hq]
  simp [hq0]

/- ---------- C6 ---------- -/

/-- C6: for every stake and every malformed odds string — trimmed length below 2
(including empty), a leading character that is neither '+' nor '-', a magnitude
that does not parse as a number, or a magnitude that parses to zero or a
negative value — calculateProfit returns 0. -/
theorem calculateProfit_malformed_zero (stake : ℚ) (s : String)
    (h : (trimList s.toList).length < 2 ∨
      ((trimList s.toList).headD ' ' ≠ '+' ∧ (trimList s.toList).headD ' ' ≠ '-') ∨
      parseFloatList ((trimList s.toList).drop 1) = none ∨
      (∃ q, parseFloatList ((trimList s.toList).drop 1) = some q ∧ q ≤ 0)) :
    calculateProfit stake s = 0 := by
  rcases h with h | ⟨hp, hm⟩ | h | ⟨q, hq, hq0⟩
  · unfold calculateProfit
    rw [if_pos h]
  · by_cases hlen : (trimList s.toList).length < 2
    · unfold calculateProfit
      rw [if_pos hlen]
    · cases hpf : parseFloatList ((trimList s.toList).drop 1) with
      | none =>
        unfold calculateProfit
        rw [if_neg hlen, hpf]
      | some q =>
        by_cases hq0 : q ≤ 0
        · unfold calculateProfit
          rw [if_neg hlen, hpf]
          simp [hq0]
        · rw [calculateProfit_eq_of_parse stake s q hlen hpf hq0, if_neg hp, if_neg hm]
          exact roundTo2_zero
  · by_cases hlen : (trimList s.toList).length < 2
    · unfold calculateProfit
      rw [if_pos hlen]
    · unfold calculateProfit
      rw [if_neg hlen, h]
  · by_cases hlen : (trimList s.toList).length < 2
    · unfold calculateProfit
      rw [if_pos hlen]
    · unfold calculateProfit
      rw [if_neg hlen, hq]
      simp [hq0]

/-- Witness for C6 at the malformed odds string "abc" and stake 5. -/
theorem calculateProfit_malformed_zero_witness : calculateProfit 5 "abc" = 0 :=
  calculateProfit_malformed_zero 5 "abc" (Or.inr (Or.inl (by decide)))

/- ---------- C2 ---------- -/

/-- C2: for every positive stake s and digit string N with positive value,
calculateProfit at "+N" is s * (N/100) rounded to two decimals, and at "-N"
it is s / (N/100) rounded to two decimals. -/
theorem calculateProfit_signed_odds (s : ℚ) (hs : 0 < s) (ds : List Char)
    (hne : ds ≠ []) (hdig : ∀ c ∈ ds, c.isDigit = true) (hpos : 0 < digitsVal ds) :
    calculateProfit s (String.mk ('+' :: ds)) = roundTo2 (s * ((digitsVal ds : ℚ) / 100)) ∧
    calculateProfit s (String.mk ('-' :: ds)) = roundTo2 (s / ((digitsVal ds : ℚ) / 100)) := by
  have hlen : 0 < ds.length := List.length_pos.mpr hne
  have hq : (0 : ℚ) < (digitsVal ds : ℚ) := by exact_mod_cast hpos
  have habs : |((digitsVal ds : ℚ))| = (digitsVal ds : ℚ) := abs_of_pos hq
  have hnle : ¬ ((digitsVal ds : ℚ) ≤ 0) := not_le.mpr hq
  constructor
  · have htrim : trimList (String.mk ('+' :: ds)).toList = '+' :: ds := by
      refine trimList_of_no_ws _ ?_
      intro c hc
      rcases List.mem_cons.mp hc with rfl | hc
      · decide
      · exact isDigit_not_ws c (hdig c hc)
    have hlen2 : ¬ (trimList (String.mk ('+' :: ds)).toList).length < 2 := by
      rw [htrim]
      simp only [List.length_cons]
      omega
    have hpf : parseFloatList ((trimList (String.mk ('+' :: ds)).toList).drop 1) =
        some ((digitsVal ds : ℚ)) := by
      rw [htrim]
      exact parseFloatList_digits ds hne hdig
    rw [calculateProfit_eq_of_parse s _ _ hlen2 hpf hnle, htrim]
    rw [if_pos (show ('+' :: ds).headD ' ' = '+' from rfl), habs]
  · have htrim : trimList (String.mk ('-' :: ds)).toList = '-' :: ds := by
      refine trimList_of_no_ws _ ?_
      intro c hc
      rcases List.mem_cons.mp hc with rfl | hc
      · decide
      · exact isDigit_not_ws c (hdig c hc)
    have hlen2 : ¬ (trimList (String.mk ('-' :: ds)).toList).length < 2 := by
      rw [htrim]
      simp only [List.length_cons]
      omega
    have hpf : parseFloatList ((trimList (String.mk ('-' :: ds)).toList).drop 1) =
        some ((digitsVal ds : ℚ)) := by
      rw [htrim]
      exact parseFloatList_digits ds hne hdig
    rw [calculateProfit_eq_of_parse s _ _ hlen2 hpf hnle, htrim]
    rw [if_neg (show ¬ ('-' :: ds).headD ' ' = '+' from
        fun h => absurd (show ('-' : Char) = '+' from h) (by decide)),
      if_pos (show ('-' :: ds).headD ' ' = '-' from rfl), habs]

/-- Witness for C2 at stake 100 and odds magnitude 150. -/
theorem calculateProfit_signed_odds_witness :
    calculateProfit 100 (String.mk ('+' :: ['1', '5', '0'])) =
      roundTo2 (100 * ((digitsVal ['1', '5', '0'] : ℚ) / 100)) ∧
    calculateProfit 100 (String.mk ('-' :: ['1', '5', '0'])) =
      roundTo2 (100 / ((digitsVal ['1', '5', '0'] : ℚ) / 100)) :=
  calculateProfit_signed_odds 100 (by decide) ['1', '5', '0'] (by decide) (by decide) (by decide)

/- ---------- concrete states used by witnesses and counterexamples ---------- -/

def demoStep : Step :=
  { day := 1, stake := 1, profit := 1, nextBalance := 2, isGoalDay := true }

def demoLadder (i : ℕ) : Ladder :=
  { id := i, name := "L", startStake := 1, goalAmount := 2, odds := "+100",
    currentAmount := 1, currentDayIndex := 0, ladderData := [demoStep] }

def demoStateActive : AppState :=
  { allLadders := [demoLadder 1, demoLadder 2], selectedLadderId := some 1,
    winClickState := WinClick.ready, isDeletePending := false, isSaving := false }

def demoStatePending : AppState :=
  { demoStateActive with winClickState := WinClick.pending }

def demoStateDelete : AppState :=
  { demoStateActive with isDeletePending := true }

def demoStateDelete2 : AppState :=
  { demoStateActive with selectedLadderId := some 2, isDeletePending := true }

def demoDoneLadder : Ladder :=
  { demoLadder 3 with currentDayIndex := 1 }

def demoStateDone : AppState :=
  { allLadders := [demoDoneLadder], selectedLadderId := some 3,
    winClickState := WinClick.ready, isDeletePending := false, isSaving := false }

/- ---------- state-machine helper lemmas ---------- -/

lemma find?_map_update (sid : Option ℕ) (u : Ladder → Ladder)
    (hu : ∀ l, (u l).id = l.id) :
    ∀ (ls : List Ladder) (al : Ladder),
      ls.find? (fun l => decide (some l.id = sid)) = some al →
      (ls.map (fun l => if l.id = al.id then u l else l)).find?
        (fun l => decide (some l.id = sid)) = some (u al) := by
  intro ls
  induction ls with
  | nil => intro al h; simp at h
  | cons a ls ih =>
    intro al h
    by_cases hp : some a.id = sid
    · rw [List.find?_cons_of_pos _ (by simpa using hp)] at h
      obtain rfl : a = al := Option.some.inj h
      rw [List.map_cons, if_pos rfl]
      exact List.find?_cons_of_pos _ (by simpa [hu a] using hp)
    · rw [List.find?_cons_of_neg _ (by simpa using hp)] at h
      rw [List.map_cons]
      have hid : (if a.id = al.id then u a else a).id = a.id := by
        split
        · exact hu a
        · rfl
      rw [List.find?_cons_of_neg _ (by simpa [hid] using hp)]
      exact ih al h

lemma hpu_win_goal_reached (st : AppState) (al : Ladder)
    (hact : activeLadder st = some al) (hsav : st.isSaving = false)
    (hge : al.ladderData.length ≤ al.currentDayIndex) :
    handleProgressUpdate st UpdateType.win = (st, true) := by
  simp only [handleProgressUpdate, hact, hsav, Bool.false_eq_true, if_false]
  rw [if_pos hge]

lemma hpu_win_active_eq (st : AppState) (al : Ladder)
    (hact : activeLadder st = some al) (hsav : st.isSaving = false)
    (hlt : al.currentDayIndex < al.ladderData.length) :
    handleProgressUpdate st UpdateType.win =
      ({ st with allLadders := st.allLadders.map (fun l =>
          if l.id = al.id then
            { l with
              currentAmount :=
                if (al.ladderData.getD al.currentDayIndex default).isGoalDay
                then al.goalAmount
                else (al.ladderData.getD al.currentDayIndex default).nextBalance
              currentDayIndex := l.currentDayIndex + 1 }
          else l) }, false) := by
  simp only [handleProgressUpdate, hact, hsav, Bool.false_eq_true, if_false]
  rw [if_neg (not_le.mpr hlt)]

lemma activeLadder_hpu_win (st : AppState) (al : Ladder)
    (hact : activeLadder st = some al) (hsav : st.isSaving = false)
    (hlt : al.currentDayIndex < al.ladderData.length) :
    activeLadder (handleProgressUpdate st UpdateType.win).1 = some (winStep al) := by
  rw [hpu_win_active_eq st al hact hsav hlt]
  exact find?_map_update st.selectedLadderId
    (fun l =>
      { l with
        currentAmount :=
          if (al.ladderData.getD al.currentDayIndex default).isGoalDay
          then al.goalAmount
          else (al.ladderData.getD al.currentDayIndex default).nextBalance
        currentDayIndex := l.currentDayIndex + 1 })
    (fun l => rfl) st.allLadders al hact

/- ---------- C4 ---------- -/

/-- C4: with an active ladder selected and no save in flight, the WIN update on
an ACTIVE ladder (cursor strictly below the step count) reads the step at the
cursor, sets the balance to the goal amount when that step is a goal day and to
the step's nextBalance otherwise, advances the cursor by exactly one, and does
not report already-complete; invoked on a GOAL_REACHED ladder (cursor equal to
the step count) it reports already-complete and leaves the state unchanged. -/
theorem handleProgressUpdate_win_spec (st : AppState) (al : Ladder)
    (hact : activeLadder st = some al) (hsav : st.isSaving = false) :
    (al.currentDayIndex < al.ladderData.length →
      (handleProgressUpdate st UpdateType.win).2 = false ∧
      activeLadder (handleProgressUpdate st UpdateType.win).1 = some (winStep al) ∧
      (winStep al).currentAmount =
        (if (al.ladderData.getD al.currentDayIndex default).isGoalDay then al.goalAmount
         else (al.ladderData.getD al.currentDayIndex default).nextBalance) ∧
      (winStep al).currentDayIndex = al.currentDayIndex + 1) ∧
    (al.currentDayIndex = al.ladderData.length →
      (handleProgressUpdate st UpdateType.win).2 = true ∧
      (handleProgressUpdate st UpdateType.win).1 = st) := by
  constructor
  · intro hlt
    refine ⟨?_, activeLadder_hpu_win st al hact hsav hlt, rfl, rfl⟩
    rw [hpu_win_active_eq st al hact hsav hlt]
  · intro heq
    rw [hpu_win_goal_reached st al hact hsav (le_of_eq heq.symm)]
    exact ⟨rfl, rfl⟩

/-- Witness for C4: one active-ladder win and one already-complete win. -/
theorem handleProgressUpdate_win_spec_witness :
    ((handleProgressUpdate demoStateActive UpdateType.win).2 = false ∧
      activeLadder (handleProgressUpdate demoStateActive UpdateType.win).1 =
        some (winStep (demoLadder 1)) ∧
      (winStep (demoLadder 1)).currentAmount =
        (if ((demoLadder 1).ladderData.getD (demoLadder 1).currentDayIndex default).isGoalDay
         then (demoLadder 1).goalAmount
         else ((demoLadder 1).ladderData.getD (demoLadder 1).currentDayIndex default).nextBalance) ∧
      (winStep (demoLadder 1)).currentDayIndex = (demoLadder 1).currentDayIndex + 1) ∧
    ((handleProgressUpdate demoStateDone UpdateType.win).2 = true ∧
      (handleProgressUpdate demoStateDone UpdateType.win).1 = demoStateDone) :=
  ⟨(handleProgressUpdate_win_spec demoStateActive (demoLadder 1) (by decide) rfl).1 (by decide),
   (handleProgressUpdate_win_spec demoStateDone demoDoneLadder (by decide) rfl).2 (by decide)⟩

/- ---------- C10 ---------- -/

/-- C10: applyLoss is idempotent — applying it twice gives the same ladder as
applying it once, namely currentAmount = startStake and cursor 0. -/
theorem applyLoss_idempotent (l : Ladder) :
    applyLoss (applyLoss l) = applyLoss l ∧
    (applyLoss l).currentAmount = l.startStake ∧ (applyLoss l).currentDayIndex = 0 :=
  ⟨rfl, rfl, rfl⟩

/- ---------- C7 ---------- -/

/-- C7: with an active, unfinished ladder and no save in flight, a first win tap
while the confirmation is ready moves it to pending without touching any ladder,
and a second tap then returns the confirmation to ready and applies exactly one
win transition to the active ladder. -/
theorem handleWinTap_double_tap (st : AppState) (al : Ladder)
    (hact : activeLadder st = some al)
    (hlt : al.currentDayIndex < al.ladderData.length)
    (hsav : st.isSaving = false)
    (hclick : st.winClickState = WinClick.ready) :
    (handleWinTap st).winClickState = WinClick.pending ∧
    (handleWinTap st).allLadders = st.allLadders ∧
    (handleWinTap (handleWinTap st)).winClickState = WinClick.ready ∧
    activeLadder (handleWinTap (handleWinTap st)) = some (winStep al) := by
  have hguard : ¬ (al.ladderData.length = 0 ∨ al.ladderData.length ≤ al.currentDayIndex ∨
      st.isSaving = true) := by
    push_neg
    exact ⟨by omega, by omega, by simp [hsav]⟩
  have h1 : handleWinTap st = { st with winClickState := WinClick.pending } := by
    simp only [handleWinTap, hact]
    rw [if_neg hguard, hclick]
  have hact1 : activeLadder { st with winClickState := WinClick.pending } = some al := hact
  have h2 : handleWinTap { st with winClickState := WinClick.pending } =
      (handleProgressUpdate { st with winClickState := WinClick.ready } UpdateType.win).1 := by
    simp only [handleWinTap, hact1]
    rw [if_neg hguard]
  have hact2 : activeLadder { st with winClickState := WinClick.ready } = some al := hact
  refine ⟨by rw [h1], by rw [h1], ?_, ?_⟩
  · rw [h1, h2, hpu_win_active_eq _ al hact2 hsav hlt]
  · rw [h1, h2]
    exact activeLadder_hpu_win _ al hact2 hsav hlt

/-- Witness for C7 at a concrete two-ladder state with a ready confirmation. -/
theorem handleWinTap_double_tap_witness :
    (handleWinTap demoStateActive).winClickState = WinClick.pending ∧
    (handleWinTap demoStateActive).allLadders = demoStateActive.allLadders ∧
    (handleWinTap (handleWinTap demoStateActive)).winClickState = WinClick.ready ∧
    activeLadder (handleWinTap (handleWinTap demoStateActive)) = some (winStep (demoLadder 1)) :=
  handleWinTap_double_tap demoStateActive (demoLadder 1) (by decide) (by decide) rfl rfl

/- ---------- C8 ---------- -/

/-- C8 counterexample: switching the selected ladder while the win confirmation
is pending does NOT reset it to ready — it stays pending, and a single win tap
after the switch immediately applies a win to the newly selected ladder. -/
theorem selectLadder_keeps_pending :
    (selectLadder demoStatePending 2).winClickState = WinClick.pending ∧
    (selectLadder demoStatePending 2).selectedLadderId = some 2 ∧
    WinClick.pending ≠ WinClick.ready ∧
    activeLadder (handleWinTap (selectLadder demoStatePending 2)) =
      some (winStep (demoLadder 2)) := by
  decide

/-- C8 amended: switching the selected ladder resets the delete confirmation
and changes the selection, but leaves the win-confirmation state unchanged, so
a pending confirmation carries over to the newly selected ladder. -/
theorem selectLadder_preserves_winClick (st : AppState) (newId : ℕ)
    (hne : st.allLadders.isEmpty = false) (hsav : st.isSaving = false) :
    (selectLadder st newId).winClickState = st.winClickState ∧
    (selectLadder st newId).isDeletePending = false ∧
    (selectLadder st newId).selectedLadderId = some newId := by
  unfold selectLadder
  rw [if_neg (by simp [hne, hsav])]
  exact ⟨rfl, rfl, rfl⟩

/-- Witness for the amended C8 at a concrete pending state. -/
theorem selectLadder_preserves_winClick_witness :
    (selectLadder demoStatePending 2).winClickState = demoStatePending.winClickState ∧
    (selectLadder demoStatePending 2).isDeletePending = false ∧
    (selectLadder demoStatePending 2).selectedLadderId = some 2 :=
  selectLadder_preserves_winClick demoStatePending 2 (by decide) rfl

/- ---------- C9 ---------- -/

/-- C9 counterexample: deleting the selected ladder (id 1, the first of two)
leaves selectedLadderId = some 1 — the id of the ladder just deleted — while no
ladder with that id remains, so the selection reference dangles. -/
theorem delete_dangling_selection :
    (handleConfirmDelete demoStateDelete).selectedLadderId = some 1 ∧
    ((handleConfirmDelete demoStateDelete).allLadders.all (fun l => decide (l.id ≠ 1))) = true ∧
    activeLadder (handleConfirmDelete demoStateDelete) = none := by
  decide

/-- C9 amended: deleting the selected ladder removes every ladder with its id
from the list, so the selection never RESOLVES to the deleted ladder (the
active-ladder lookup yields none or a ladder with a different id) — but the
stored selection id is set to the pre-delete first ladder's id (when more than
one ladder existed) and may still equal the deleted id; the Firestore variant
instead always clears the selection. -/
theorem delete_never_resolves_deleted (st : AppState) (al : Ladder)
    (hact : activeLadder st = some al) (hdp : st.isDeletePending = true) :
    (∀ l ∈ (handleConfirmDelete st).allLadders, l.id ≠ al.id) ∧
    (∀ l, activeLadder (handleConfirmDelete st) = some l → l.id ≠ al.id) ∧
    (handleConfirmDeleteRemote st).selectedLadderId = none := by
  have hnd : ¬ st.isDeletePending = false := by simp [hdp]
  have hdel : handleConfirmDelete st =
      { st with
        allLadders := st.allLadders.filter (fun l => decide (l.id ≠ al.id))
        selectedLadderId :=
          if 1 < st.allLadders.length then some ((st.allLadders.getD 0 default).id)
          else none
        isDeletePending := false } := by
    simp only [handleConfirmDelete, hact]
    rw [if_neg hnd]
  have h1 : ∀ l ∈ (handleConfirmDelete st).allLadders, l.id ≠ al.id := by
    intro l hl
    rw [hdel] at hl
    have := (List.mem_filter.mp hl).2
    simpa using this
  refine ⟨h1, fun l hf => h1 l (List.mem_of_find?_eq_some hf), ?_⟩
  simp only [handleConfirmDeleteRemote, hact]
  rw [if_neg hnd]

/-- Witness for the amended C9: after deleting selected ladder 2, the selection
resolves to ladder 1, whose id differs from the deleted one. -/
theorem delete_never_resolves_deleted_witness :
    activeLadder (handleConfirmDelete demoStateDelete2) = some (demoLadder 1) ∧
    (demoLadder 1).id ≠ (demoLadder 2).id :=
  ⟨by decide,
   (delete_never_resolves_deleted demoStateDelete2 (demoLadder 2) (by decide) rfl).2.1
     (demoLadder 1) (by decide)⟩

/- ---------- projection loop lemmas ---------- -/

lemma balAfter_shift (odds : String) (s : ℚ) :
    ∀ n, balAfter odds s (n + 1) = balAfter odds (nextBal odds s) n := by
  intro n
  induction n with
  | zero => rfl
  | succ k ih =>
    show nextBal odds (balAfter odds s (k + 1)) = nextBal odds (balAfter odds (nextBal odds s) k)
    rw [ih]

lemma calcLoop_goal_spec (goal : ℚ) (odds : String) :
    ∀ (fuel : ℕ) (s : ℚ) (day : ℕ), s < goal →
      (∃ n, 1 ≤ n ∧ n ≤ fuel ∧ day + n ≤ 501 ∧ goal ≤ balAfter odds s n) →
      ∃ gstep, (calcLoop goal odds fuel s day).getLast? = some gstep ∧
        gstep.isGoalDay = true ∧ goal ≤ gstep.nextBalance ∧
        ∀ st ∈ (calcLoop goal odds fuel s day).dropLast, st.isGoalDay = false := by
  intro fuel
  induction fuel with
  | zero =>
    intro s day hs h
    obtain ⟨n, h1, h2, _, _⟩ := h
    omega
  | succ fuel ih =>
    intro s day hs h
    obtain ⟨n, hn1, hnf, hnd, hgoal⟩ := h
    have hday : day ≤ 500 := by omega
    simp only [calcLoop]
    rw [if_pos ⟨hs, hday⟩]
    by_cases hnb : goal ≤ s + calculateProfit s odds
    · rw [if_pos hnb]
      refine ⟨⟨day, s, calculateProfit s odds, s + calculateProfit s odds,
        decide (goal ≤ s + calculateProfit s odds)⟩, by simp, decide_eq_true hnb, hnb, ?_⟩
      intro st hst
      simp at hst
    · rw [if_neg hnb]
      have hs' : s + calculateProfit s odds < goal := lt_of_not_le hnb
      have hnb1 : balAfter odds s 1 = s + calculateProfit s odds := rfl
      have hn2 : 2 ≤ n := by
        by_contra hcon
        have hone : n = 1 := by omega
        subst hone
        rw [hnb1] at hgoal
        exact hnb hgoal
      obtain ⟨m, rfl⟩ : ∃ m, n = m + 1 := ⟨n - 1, by omega⟩
      have hshift := balAfter_shift odds s m
      have hnext : nextBal odds s = s + calculateProfit s odds := rfl
      have hrec := ih (s + calculateProfit s odds) (day + 1) hs'
        ⟨m, by omega, by omega, by omega, by rw [← hnext, ← hshift]; exact hgoal⟩
      obtain ⟨gstep, hlast, hgd, hnbal, hdrop⟩ := hrec
      have htne : calcLoop goal odds fuel (s + calculateProfit s odds) (day + 1) ≠ [] := by
        intro he
        rw [he] at hlast
        simp at hlast
      obtain ⟨t, ts, hts⟩ := List.exists_cons_of_ne_nil htne
      refine ⟨gstep, ?_, hgd, hnbal, ?_⟩
      · rw [hts, List.getLast?_cons_cons, ← hts]
        exact hlast
      · intro st hst
        rw [hts, List.dropLast_cons₂] at hst
        rcases List.mem_cons.mp hst with rfl | hst'
        · exact decide_eq_false hnb
        · exact hdrop st (by rw [hts]; exact hst')

/- ---------- C1 ---------- -/

/-- C1: for every start stake, goal strictly above it, and validated odds string
whose compounding iteration reaches the goal within 500 steps, calculateLadder
returns a non-empty sequence whose last step has isGoalDay true and
nextBalance at or above the goal; every step that is a goal day IS the last
step (so there is at most one), and every non-last step has isGoalDay false. -/
theorem calculateLadder_last_goal (start goal : ℚ) (odds : String)
    (hvalid : validOddsList odds.toList = true)
    (hlt : start < goal)
    (hconv : ∃ n, 1 ≤ n ∧ n ≤ 500 ∧ goal ≤ balAfter odds start n) :
    calculateLadder start goal odds ≠ [] ∧
    (∃ gstep, (calculateLadder start goal odds).getLast? = some gstep ∧
      gstep.isGoalDay = true ∧ goal ≤ gstep.nextBalance ∧
      ∀ st ∈ calculateLadder start goal odds, st.isGoalDay = true → st = gstep) ∧
    ∀ st ∈ (calculateLadder start goal odds).dropLast, st.isGoalDay = false := by
  obtain ⟨n, hn1, hn500, hgoal⟩ := hconv
  obtain ⟨gstep, hlast, hgd, hnb, hdrop⟩ :=
    calcLoop_goal_spec goal odds 501 start 1 hlt ⟨n, hn1, by omega, by omega, hgoal⟩
  have hlast' : (calculateLadder start goal odds).getLast? = some gstep := hlast
  have hdrop' : ∀ st ∈ (calculateLadder start goal odds).dropLast, st.isGoalDay = false := hdrop
  have hne : calculateLadder start goal odds ≠ [] := by
    intro he
    rw [he] at hlast'
    simp at hlast'
  refine ⟨hne, ⟨gstep, hlast', hgd, hnb, ?_⟩, hdrop'⟩
  intro st hst hstg
  have hsplit := List.dropLast_append_getLast hne
  have hgl : (calculateLadder start goal odds).getLast hne = gstep := by
    have hq := List.getLast?_eq_getLast (calculateLadder start goal odds) hne
    rw [hq] at hlast'
    exact Option.some.inj hlast'
  rw [← hsplit] at hst
  rcases List.mem_append.mp hst with hmem | hmem
  · exact absurd hstg (by simp [hdrop' st hmem])
  · rw [List.mem_singleton.mp hmem, hgl]

/-- Witness for C1 at start 100, goal 1000, odds "+150" (converges in 3 steps). -/
theorem calculateLadder_last_goal_witness :
    (calculateLadder 100 1000 "+150").getLast?.map Step.isGoalDay = some true ∧
    ((calculateLadder 100 1000 "+150").dropLast.all (fun st => !st.isGoalDay)) = true := by
  obtain ⟨hne, ⟨gstep, hlast, hgd, hnb, huniq⟩, hdrop⟩ :=
    calculateLadder_last_goal 100 1000 "+150" (by decide) (by decide)
      ⟨3, by omega, by omega, by decide⟩
  constructor
  · rw [hlast]
    simp [hgd]
  · rw [List.all_eq_true]
    intro st hst
    rw [hdrop st hst]
    rfl

/- ---------- C3 ---------- -/

lemma calcLoop_chain_spec (goal : ℚ) (odds : String) :
    ∀ (fuel : ℕ) (s : ℚ) (day : ℕ),
      (0 < (calcLoop goal odds fuel s day).length →
        ((calcLoop goal odds fuel s day).getD 0 default).stake = s) ∧
      (∀ i, i + 1 < (calcLoop goal odds fuel s day).length →
        ((calcLoop goal odds fuel s day).getD (i + 1) default).stake =
          ((calcLoop goal odds fuel s day).getD i default).nextBalance) ∧
      (∀ st ∈ calcLoop goal odds fuel s day,
        st.profit = calculateProfit st.stake odds ∧
          st.nextBalance = st.stake + st.profit) := by
  intro fuel
  induction fuel with
  | zero =>
    intro s day
    refine ⟨fun h0 => absurd h0 (by simp [calcLoop]),
      fun i hi => absurd hi (by simp [calcLoop]),
      fun st hst => absurd hst (by simp [calcLoop])⟩
  | succ fuel ih =>
    intro s day
    by_cases hc : s < goal ∧ day ≤ 500
    case neg =>
      have hempty : calcLoop goal odds (fuel + 1) s day = [] := by
        simp only [calcLoop]
        rw [if_neg hc]
      refine ⟨fun h0 => absurd h0 (by simp [hempty]),
        fun i hi => absurd hi (by simp [hempty]),
        fun st hst => absurd hst (by simp [hempty])⟩
    case pos =>
      by_cases hnb : goal ≤ s + calculateProfit s odds
      · have hone : calcLoop goal odds (fuel + 1) s day =
            [⟨day, s, calculateProfit s odds, s + calculateProfit s odds,
              decide (goal ≤ s + calculateProfit s odds)⟩] := by
          simp only [calcLoop]
          rw [if_pos hc, if_pos hnb]
        refine ⟨?_, ?_, ?_⟩
        · intro h0
          rw [hone, List.getD_cons_zero]
        · intro i hi
          rw [hone] at hi
          simp at hi
        · intro st hst
          rw [hone] at hst
          rw [List.mem_singleton.mp hst]
          exact ⟨rfl, rfl⟩
      · have hcons : calcLoop goal odds (fuel + 1) s day =
            ⟨day, s, calculateProfit s odds, s + calculateProfit s odds,
              decide (goal ≤ s + calculateProfit s odds)⟩ ::
              calcLoop goal odds fuel (s + calculateProfit s odds) (day + 1) := by
          simp only [calcLoop]
          rw [if_pos hc, if_neg hnb]
        obtain ⟨ih1, ih2, ih3⟩ := ih (s + calculateProfit s odds) (day + 1)
        refine ⟨?_, ?_, ?_⟩
        · intro h0
          rw [hcons, List.getD_cons_zero]
        · intro i hi
          rw [hcons, List.length_cons] at hi
          cases i with
          | zero =>
            rw [hcons, List.getD_cons_succ, List.getD_cons_zero]
            exact ih1 (by omega)
          | succ j =>
            rw [hcons, List.getD_cons_succ, List.getD_cons_succ]
            exact ih2 j (by omega)
        · intro st hst
          rw [hcons] at hst
          rcases List.mem_cons.mp hst with rfl | hst'
          · exact ⟨rfl, rfl⟩
          · exact ih3 st hst'

/-- C3: in every projected ladder, step 0 stakes the start amount, each later
step stakes exactly the previous step's nextBalance, and every step's profit is
calculateProfit of its own stake with nextBalance = stake + profit. -/
theorem calculateLadder_chain (start goal : ℚ) (odds : String) :
    (0 < (calculateLadder start goal odds).length →
      ((calculateLadder start goal odds).getD 0 default).stake = start) ∧
    (∀ i, i + 1 < (calculateLadder start goal odds).length →
      ((calculateLadder start goal odds).getD (i + 1) default).stake =
        ((calculateLadder start goal odds).getD i default).nextBalance) ∧
    (∀ st ∈ calculateLadder start goal odds,
      st.profit = calculateProfit st.stake odds ∧
        st.nextBalance = st.stake + st.profit) :=
  calcLoop_chain_spec goal odds 501 start 1

/-- Witness for C3 on the three-step ladder at start 100, goal 1000, "+150". -/
theorem calculateLadder_chain_witness :
    ((calculateLadder 100 1000 "+150").getD 0 default).stake = 100 ∧
    ((calculateLadder 100 1000 "+150").getD 1 default).stake =
      ((calculateLadder 100 1000 "+150").getD 0 default).nextBalance :=
  ⟨(calculateLadder_chain 100 1000 "+150").1 (by decide),
   (calculateLadder_chain 100 1000 "+150").2.1 0 (by decide)⟩

/- ---------- C5 ---------- -/

lemma calcLoop_ne_nil (goal : ℚ) (odds : String) (s : ℚ) (day fuel : ℕ)
    (h : s < goal) (hday : day ≤ 500) (hfuel : 0 < fuel) :
    calcLoop goal odds fuel s day ≠ [] := by
  cases fuel with
  | zero => omega
  | succ f =>
    simp only [calcLoop]
    rw [if_pos ⟨h, hday⟩]
    by_cases hnb : goal ≤ s + calculateProfit s odds
    · rw [if_pos hnb]
      simp
    · rw [if_neg hnb]
      simp

/-- C5 counterexample: the inputs name "A", start "1", goal "2", odds "+0" pass
createLadder's validation (the regex admits "+0"), the projection runs to the
500-step ceiling with no goal day — yet creation SUCCEEDS: a ladder is created
whose 500 steps all have isGoalDay false. -/
theorem createLadder_ceiling_accepts :
    (createLadder "A" "1" "2" "+0").isSome = true ∧
    Option.map (fun l => l.ladderData.length) (createLadder "A" "1" "2" "+0") = some 500 ∧
    Option.map (fun l => l.ladderData.all (fun st => !st.isGoalDay))
      (createLadder "A" "1" "2" "+0") = some true := by
  decide

/-- C5 amended: createLadder rejects a projection only when it is EMPTY; for any
input passing validation the projection starts below the goal and so is never
empty, hence creation always succeeds — including odds (such as "+0") whose
projection runs to the 500-step ceiling without a goal day. -/
theorem createLadder_validated_succeeds (name s g o : String) (a b : ℚ)
    (hname : trimList name.toList ≠ [])
    (hs : parseFloatList (sanitizeNum s) = some a)
    (hg : parseFloatList (sanitizeNum g) = some b)
    (ha : 0 < a) (hab : a < b)
    (ho : validOddsList (trimList o.toList) = true) :
    (createLadder name s g o).isSome = true := by
  unfold createLadder
  simp only [hs, hg]
  have hval : ¬ (trimList name.toList = [] ∨ a ≤ 0 ∨ b ≤ a ∨
      ¬ validOddsList (trimList o.toList) = true) := by
    push_neg
    exact ⟨hname, ha, hab, ho⟩
  rw [if_neg hval]
  have hne := calcLoop_ne_nil b (String.mk (trimList o.toList)) a 1 501 hab
    (by omega) (by omega)
  rw [if_neg (show ¬ (calculateLadder a b (String.mk (trimList o.toList))).length = 0 from
    fun hz => hne (List.length_eq_zero.mp hz))]
  rfl

/-- Witness for the amended C5 at validated inputs start 1, goal 2, odds "+150". -/
theorem createLadder_validated_succeeds_witness :
    (createLadder "A" "1" "2" "+150").isSome = true :=
  createLadder_validated_succeeds "A" "1" "2" "+150" 1 2 (by decide) (by decide) (by decide)
    (by decide) (by decide) (by decide)

end Sbk
